import Mathlib

/-!
Verification of the Minutero streaming transcription pipeline.

Shallow embedding of the Python sources:
  * `config/settings.py`        → `Settings`
  * `plugins/whisper_model.py`  → `WhisperModel`
  * `core/audio_manager.py`     → `AudioManager`
  * `core/transcription_engine.py` → `TranscriptionEngine`

Timestamps (Python floats obtained as byte-count divisions) are embedded as
rationals; PCM byte buffers are embedded by their byte counts, and a span of
the append-only buffer is identified by its pair of byte offsets, which fully
determines its contents given the input chunk sequence.
-/

/- ===== config/settings.py ===== -/

namespace Settings

def AUDIO_SAMPLE_RATE : ℕ := 16000

def AUDIO_CHUNK_SIZE : ℕ := 1024

end Settings

/- ===== core/models.py : TranscriptionSegment ===== -/

/-- Structure `TranscriptionSegment` from `core/models.py`; the Python field `end` is
named `stop` here because `end` is a Lean keyword. -/
structure TranscriptionSegment where
  text : String
  start : ℚ
  stop : ℚ
  source_tag : String
deriving DecidableEq, Repr

/- ===== plugins/whisper_model.py ===== -/

namespace WhisperModel

/-- Constant `settings.AUDIO_SAMPLE_RATE * 2`: bytes per second of 16-bit mono PCM,
the divisor used at lines 116, 123, 160 of `plugins/whisper_model.py`. -/
def bytesPerSecond : ℕ := Settings.AUDIO_SAMPLE_RATE * 2

/-- Constant `BUFFER_DURATION_SECONDS = 5` (line 112 of `plugins/whisper_model.py`). -/
def BUFFER_DURATION_SECONDS : ℚ := 5

/-- One raw segment `(text, start, end)` as returned by a single-shot
`self._model.transcribe` call: window-local timestamps. -/
abbrev RawSeg := String × ℚ × ℚ

/-- The single-shot transcription capability (`self._model.transcribe`),
abstracted as a function of the dispatched span of the append-only byte
buffer, given by its byte offsets `(lo, hi)`; `none` models the call raising
an exception. -/
abbrev Stub := ℕ → ℕ → Option (List RawSeg)

/-- Loop state of `transcribe_stream`: `bufLen` is `audio_buffer.tell()`
(the buffer is append-only and never truncated), `lastEnd` is
`last_transcription_end` in seconds. -/
structure StreamState where
  bufLen : ℕ
  lastEnd : ℚ
deriving DecidableEq, Repr

/-- Expression `int(last_transcription_end * settings.AUDIO_SAMPLE_RATE * 2)`
(lines 123 and 160): the byte offset of the start of the undispatched span.
`last_transcription_end` is always nonnegative, where `int` truncation and
floor agree. -/
def byteOffset (t : ℚ) : ℕ := (⌊t * (bytesPerSecond : ℚ)⌋).toNat

/-- Result of processing one chunk: new state, segments yielded, and the list
of spans handed to the single-shot transcribe call (for call accounting). -/
structure StepOut where
  state : StreamState
  segs : List TranscriptionSegment
  calls : List (ℕ × ℕ)
deriving DecidableEq, Repr

/-- One iteration of the `async for chunk in audio_stream` body of
`WhisperModel.transcribe_stream` (lines 114-157):
append the chunk, and if the undispatched duration reaches
`BUFFER_DURATION_SECONDS`, dispatch the span `[byteOffset lastEnd, bufLen)`;
on success yield each raw segment shifted by `last_transcription_end` and set
`last_transcription_end := total_audio_length`; on an exception from the
transcribe call, `continue` without updating `last_transcription_end`
(the update at line 152 sits inside the `try`, after the call). -/
def processChunk (stub : Stub) (tag : String) (st : StreamState) (chunkLen : ℕ) :
    StepOut :=
  let bufLen := st.bufLen + chunkLen
  let total : ℚ := (bufLen : ℚ) / (bytesPerSecond : ℚ)
  if BUFFER_DURATION_SECONDS ≤ total - st.lastEnd then
    let lo := byteOffset st.lastEnd
    if lo < bufLen then
      match stub lo bufLen with
      | some raw =>
          ⟨⟨bufLen, total⟩,
           raw.map (fun r => ⟨r.1, r.2.1 + st.lastEnd, r.2.2 + st.lastEnd, tag⟩),
           [(lo, bufLen)]⟩
      | none => ⟨⟨bufLen, st.lastEnd⟩, [], [(lo, bufLen)]⟩
    else ⟨⟨bufLen, st.lastEnd⟩, [], []⟩
  else ⟨⟨bufLen, st.lastEnd⟩, [], []⟩

/-- The whole `async for` loop of `transcribe_stream` over a finite chunk
sequence (chunks are given by their byte lengths), collecting yielded
segments and dispatched spans in order. -/
def runLoop (stub : Stub) (tag : String) (chunks : List ℕ) :
    StreamState × List TranscriptionSegment × List (ℕ × ℕ) :=
  chunks.foldl
    (fun acc c =>
      let out := processChunk stub tag acc.1 c
      (out.state, acc.2.1 ++ out.segs, acc.2.2 ++ out.calls))
    (⟨0, 0⟩, [], [])

/-- The same `async for` loop started from an arbitrary intermediate
`(buffer, last_transcription_end)` state, used to reason about the loop by
recursion on the remaining chunks; `runLoop` is the case of the fresh state. -/
def runLoopFrom (stub : Stub) (tag : String) (st : StreamState)
    (chunks : List ℕ) :
    StreamState × List TranscriptionSegment × List (ℕ × ℕ) :=
  chunks.foldl
    (fun acc c =>
      let out := processChunk stub tag acc.1 c
      (out.state, acc.2.1 ++ out.segs, acc.2.2 ++ out.calls))
    (st, [], [])

/-- One raw segment reconciled into the absolute timeline at window origin
`o` (lines 141-148 of `plugins/whisper_model.py`):
`TranscriptionSegment(text, local_start + o, local_end + o, tag)`. -/
def shiftSeg (r : RawSeg) (tag : String) (o : ℚ) : TranscriptionSegment :=
  ⟨r.1, r.2.1 + o, r.2.2 + o, tag⟩

/-- Lines 159-182 of `plugins/whisper_model.py`: after the source ends,
dispatch `audio_buffer.getvalue()[int(last_transcription_end*SR*2):]` once
more if it is nonempty, with the same timestamp shift; an exception here is
caught and yields nothing. -/
def tailFlush (stub : Stub) (tag : String) (st : StreamState) :
    List TranscriptionSegment × List (ℕ × ℕ) :=
  let lo := byteOffset st.lastEnd
  if lo < st.bufLen then
    match stub lo st.bufLen with
    | some raw =>
        (raw.map (fun r => ⟨r.1, r.2.1 + st.lastEnd, r.2.2 + st.lastEnd, tag⟩),
         [(lo, st.bufLen)])
    | none => ([], [(lo, st.bufLen)])
  else ([], [])

/-- Method `WhisperModel.transcribe_stream` run to completion on a finite chunk
sequence: the loop followed by the tail flush.  Returns the emitted segments
and the dispatched spans, both in order. -/
def transcribeStreamRun (stub : Stub) (tag : String) (chunks : List ℕ) :
    List TranscriptionSegment × List (ℕ × ℕ) :=
  let r := runLoop stub tag chunks
  let t := tailFlush stub tag r.1
  (r.2.1 ++ t.1, r.2.2 ++ t.2)

/-- Embedded `WhisperModel` mutable state: `is_loaded` (from `BaseModel`) and the
private `_model` reference; `μ` abstracts the loaded `whisper` model object. -/
structure ModelState (mu : Type) where
  is_loaded : Bool
  _model : Option mu
deriving DecidableEq, Repr

/-- The error message raised at lines 52 and 102 of
`plugins/whisper_model.py`. -/
def notLoadedMsg : String :=
  "El modelo Whisper no esta cargado. Llama a load_model() primero."

/-- Method `WhisperModel.transcribe` (lines 46-90): guard `not self.is_loaded or
self._model is None` raising `RuntimeError`, then one inference call
(abstracted as `run`, `none` modelling the call raising) whose raw segments
are wrapped unshifted.  The method never assigns any attribute of `self`, so
the state is returned unchanged on every path. -/
def transcribe (st : ModelState mu) (run : mu → Option (List RawSeg))
    (tag : String) : Except String (List TranscriptionSegment) × ModelState mu :=
  if st.is_loaded = false ∨ st._model.isNone then (Except.error notLoadedMsg, st)
  else
    match st._model with
    | some m =>
        match run m with
        | some raw =>
            (Except.ok (raw.map fun r => ⟨r.1, r.2.1, r.2.2, tag⟩), st)
        | none => (Except.error "Error durante la transcripcion Whisper", st)
    | none => (Except.error notLoadedMsg, st)

/-- Method `WhisperModel.transcribe_stream` (lines 92-182) including the guard at
lines 101-102; the loop body and tail flush are `transcribeStreamRun`.
`modelRun m` is the single-shot capability of the loaded model `m`.  No
attribute of `self` is ever assigned, so the state is returned unchanged. -/
def transcribe_stream (st : ModelState mu) (modelRun : mu → Stub) (tag : String)
    (chunks : List ℕ) :
    Except String (List TranscriptionSegment × List (ℕ × ℕ)) × ModelState mu :=
  if st.is_loaded = false ∨ st._model.isNone then (Except.error notLoadedMsg, st)
  else
    match st._model with
    | some m => (Except.ok (transcribeStreamRun (modelRun m) tag chunks), st)
    | none => (Except.error notLoadedMsg, st)

/-- Five seconds of audio in bytes (`BUFFER_DURATION_SECONDS` worth):
the amount of undispatched audio that triggers a window dispatch. -/
def windowBytes : ℕ := 5 * bytesPerSecond

/-- The absolute timeline origin of window `w` when every dispatch lands
exactly on a window boundary: `w * W` seconds. -/
def originOf (w : ℕ) : ℚ := 5 * (w : ℚ)

/-- Stub capability returning the single fixed segment `r` on every call
(the "one fixed-offset segment per window" stub of the spec's test). -/
def okStub (r : RawSeg) : Stub := fun _ _ => some [r]

/-- Stub capability that raises on the span `[0, 192000)` (the first
5-second-plus window of the counterexample run) and succeeds with one fixed
segment elsewhere. -/
def failFirstStub : Stub := fun lo hi =>
  if lo = 0 ∧ hi = 192000 then none else some [("x", 0, 1)]

/-- Expected emissions for windows `0..w-1` under `okStub r`: the fixed local
segment shifted by each window's origin. -/
def mkSegsUpTo (r : RawSeg) (tag : String) (w : ℕ) : List TranscriptionSegment :=
  (List.range w).map (fun i => ⟨r.1, r.2.1 + originOf i, r.2.2 + originOf i, tag⟩)

/-- Expected dispatched spans for the first `w` exact windows. -/
def mkCalls (w : ℕ) : List (ℕ × ℕ) :=
  (List.range w).map (fun i => (windowBytes * i, windowBytes * (i + 1)))

/-- Number of windows dispatched over `B` buffered bytes when dispatches land
exactly on window boundaries: the full windows plus a tail window for any
remainder (`ceil(B / windowBytes)`). -/
def ceilWindows (B : ℕ) : ℕ :=
  B / windowBytes + (if windowBytes ∣ B then 0 else 1)

end WhisperModel

/- ===== core/audio_manager.py ===== -/

namespace AudioManager

/-- The three values of the `source_type` literal in
`AudioManager.start_stream`; `screen` is the loopback variant. -/
inductive SourceType
  | microphone
  | file
  | screen
deriving DecidableEq, Repr

/-- Registry effect of `AudioManager.start_stream` (lines 245-265).  The
registry `active_streams` is embedded by its ordered key list.  If the tag is
already active the method logs a warning and returns `None` (no generator is
produced); otherwise it returns the lazily-created generator for the variant
(`some ty`) — `start_stream` itself never modifies `active_streams`.  A
missing `file_path` for the file variant raises `ValueError`. -/
def start_stream (registry : List String) (ty : SourceType) (tag : String)
    (has_file_path : Bool) : Except String (List String × Option SourceType) :=
  if tag ∈ registry then Except.ok (registry, none)
  else
    match ty with
    | SourceType.microphone => Except.ok (registry, some SourceType.microphone)
    | SourceType.file =>
        if has_file_path then Except.ok (registry, some SourceType.file)
        else Except.error "Se requiere file_path para fuente file."
    | SourceType.screen => Except.ok (registry, some SourceType.screen)

/-- Method `AudioManager.stop_stream` (lines 267-282): pop the handle and cancel the
task if the tag is active (returning `true`), otherwise log a warning and do
nothing (returning `false`).  Both paths return normally: the
`asyncio.CancelledError` from awaiting the cancelled task is swallowed, so the
embedding is a total function. -/
def stop_stream (registry : List String) (tag : String) : List String × Bool :=
  if tag ∈ registry then (registry.erase tag, true)
  else (registry, false)

/-- Registry effect of the first iteration of each stream generator's body.
Only `_screen_capture_stream_generator` registers itself
(`self.active_streams[source_tag] = (record_task, stop_event)`, line 219);
`_microphone_stream_generator` (lines 28-76) and `_file_stream_generator`
(lines 78-105) never touch `active_streams`. -/
def generator_registry_enter : SourceType → List String → String → List String
  | SourceType.screen, reg, tag => if tag ∈ reg then reg else reg ++ [tag]
  | _, reg, _ => reg

/-- Registry effect of each generator's `finally` block.  Only the screen
variant removes its own entry (`if source_tag in self.active_streams: del
self.active_streams[source_tag]`, lines 241-242); the microphone and file
generators only log. -/
def generator_registry_exit : SourceType → List String → String → List String
  | SourceType.screen, reg, tag => if tag ∈ reg then reg.erase tag else reg
  | _, reg, _ => reg

/-- Loop `wf.readframes(settings.AUDIO_CHUNK_SIZE)` of
`_file_stream_generator` (lines 94-99): sequential fixed-size chunks, the
final one possibly shorter, stopping at end of file.  `frames` is the wave
file's frame sequence. -/
def readChunks (n : ℕ) (l : List α) : List (List α) :=
  if h : n = 0 ∨ l.isEmpty then []
  else l.take n :: readChunks n (l.drop n)
termination_by l.length
decreasing_by
  simp only [not_or, List.isEmpty_iff] at h
  have h1 : 0 < n := Nat.pos_of_ne_zero h.1
  have h2 : 0 < l.length := List.length_pos.mpr h.2
  simp only [List.length_drop]
  omega

/-- Generator `AudioManager._file_stream_generator` (lines 78-105) run to completion:
existence check, then the strict format validation (mono, 16-bit,
`settings.AUDIO_SAMPLE_RATE`) raising `ValueError` before any chunk is
produced, then the paced chunked read that ends naturally at end of file. -/
def file_stream_generator (file_exists : Bool) (nchannels sampwidth framerate : ℕ)
    (frames : List α) : Except String (List (List α)) :=
  if file_exists = false then Except.error "Archivo de audio no encontrado"
  else if nchannels ≠ 1 ∨ sampwidth ≠ 2 ∨ framerate ≠ Settings.AUDIO_SAMPLE_RATE then
    Except.error "Formato de archivo WAV no soportado."
  else Except.ok (readChunks Settings.AUDIO_CHUNK_SIZE frames)

end AudioManager

/- ===== core/transcription_engine.py ===== -/

namespace TranscriptionEngine

/-- A transcription model as the engine sees it: its `model_name` and
`is_loaded` flag (`core/models.py`, `BaseModel`). -/
structure MState where
  model_name : String
  is_loaded : Bool
deriving DecidableEq, Repr

/-- Observable lifecycle calls issued by `load_transcription_model`:
`unload m.model_name` for `await self.current_model.unload_model()` and
`load inst.model_name` for `await self.current_model.load_model()`. -/
inductive LoadEvent
  | unload (name : String)
  | load (name : String)
deriving DecidableEq, Repr

/-- Method `TranscriptionEngine.load_transcription_model` (lines 22-43).  The no-op
check compares `current_model.model_name` with `f"{model_name_key}-{size}"`
and requires `is_loaded`; otherwise any current model is first unloaded and
the reference cleared, then the factory instantiates the new model
(`factory = none` models `get_model_instance` raising) and `load_model` runs
(`loadOk = false` models it raising); the `except` clause resets
`current_model = None` before re-raising.  Returns the new `current_model`,
the ordered event trace, and whether the call returned without raising. -/
def load_transcription_model (current : Option MState) (key size : String)
    (factory : Option MState) (loadOk : Bool) :
    Option MState × List LoadEvent × Bool :=
  match current with
  | some m =>
      if m.model_name = key ++ "-" ++ size ∧ m.is_loaded then (some m, [], true)
      else
        match factory with
        | none => (none, [LoadEvent.unload m.model_name], false)
        | some inst =>
            if loadOk then
              (some { inst with is_loaded := true },
               [LoadEvent.unload m.model_name, LoadEvent.load inst.model_name],
               true)
            else
              (none,
               [LoadEvent.unload m.model_name, LoadEvent.load inst.model_name],
               false)
  | none =>
      match factory with
      | none => (none, [], false)
      | some inst =>
          if loadOk then
            (some { inst with is_loaded := true },
             [LoadEvent.load inst.model_name], true)
          else (none, [LoadEvent.load inst.model_name], false)

/-- Outcome of `start_transcription_stream`. -/
inductive StartOutcome
  | started
  | alreadyActive
  | noModel
deriving DecidableEq, Repr

/-- Task-dictionary effect of `TranscriptionEngine.start_transcription_stream`
(lines 71-126): a tag already present in `transcription_tasks` is ignored with
a warning (lines 90-92); with no loaded model a `RuntimeError` is raised
(lines 94-96); otherwise the pipeline task is created and recorded.
`transcription_tasks` is embedded by its ordered key list. -/
def start_transcription_stream (tasks : List String) (model_ok : Bool)
    (tag : String) : List String × StartOutcome :=
  if tag ∈ tasks then (tasks, StartOutcome.alreadyActive)
  else if model_ok = false then (tasks, StartOutcome.noModel)
  else (tasks ++ [tag], StartOutcome.started)

/-- Method `TranscriptionEngine.stop_transcription_stream` (lines 128-140) acting on
`(transcription_tasks, audio_manager.active_streams)`, both embedded by their
key lists.  If the tag has a task, the task is popped, cancelled and awaited;
line 137 then evaluates `self.audio_manager.stop_stream(source_tag)` WITHOUT
`await`: the call merely builds a coroutine object that is dropped and never
executed, so the registry is left untouched.  An inactive tag only logs a
warning.  Neither path raises. -/
def stop_transcription_stream (tasks registry : List String) (tag : String) :
    List String × List String :=
  if tag ∈ tasks then (tasks.erase tag, registry)
  else (tasks, registry)

end TranscriptionEngine

namespace WhisperModel

lemma bytesPerSecond_eq : bytesPerSecond = 32000 := rfl

lemma windowBytes_eq : windowBytes = 160000 := rfl

lemma windowBytes_pos : 0 < windowBytes := by rw [windowBytes_eq]; norm_num

/-- The dispatch condition at line 119 of `plugins/whisper_model.py`, in byte
units: with `last_transcription_end = originOf w`, it holds for a buffer of
`B` bytes exactly when `B` has reached the end of window `w`. -/
lemma threshold_iff (B w : ℕ) :
    (BUFFER_DURATION_SECONDS ≤ (B : ℚ) / (bytesPerSecond : ℚ) - originOf w) ↔
      windowBytes * (w + 1) ≤ B := by
  simp only [BUFFER_DURATION_SECONDS, originOf, bytesPerSecond_eq, windowBytes_eq]
  rw [le_sub_iff_add_le, le_div_iff (by norm_num : (0:ℚ) < ((32000:ℕ):ℚ))]
  constructor
  · intro hle
    have h3 : ((160000 * (w + 1) : ℕ) : ℚ) ≤ (B : ℚ) := by push_cast at hle ⊢; linarith
    exact_mod_cast h3
  · intro hge
    have h3 : ((160000 * (w + 1) : ℕ) : ℚ) ≤ (B : ℚ) := by exact_mod_cast hge
    push_cast at h3 ⊢
    linarith

lemma byteOffset_originOf (w : ℕ) : byteOffset (originOf w) = windowBytes * w := by
  simp only [byteOffset, originOf, bytesPerSecond_eq, windowBytes_eq]
  have h : (5 : ℚ) * (w : ℚ) * ((32000 : ℕ) : ℚ) = ((160000 * w : ℕ) : ℚ) := by
    push_cast; ring
  rw [h, Int.floor_natCast, Int.toNat_natCast]

lemma total_exact (w : ℕ) :
    ((windowBytes * (w + 1) : ℕ) : ℚ) / (bytesPerSecond : ℚ) = originOf (w + 1) := by
  simp only [windowBytes_eq, bytesPerSecond_eq, originOf]
  push_cast
  rw [div_eq_iff (by norm_num : (32000 : ℚ) ≠ 0)]
  ring

end WhisperModel

namespace WhisperModel

/-- Processing a chunk that does not complete window `w` only grows the
buffer: no dispatch, no emission. -/
lemma processChunk_no_dispatch (stub : Stub) (tag : String) (B c w : ℕ)
    (h : B + c < windowBytes * (w + 1)) :
    processChunk stub tag ⟨B, originOf w⟩ c = ⟨⟨B + c, originOf w⟩, [], []⟩ := by
  have hcond :
      ¬ (BUFFER_DURATION_SECONDS ≤
          ((B + c : ℕ) : ℚ) / (bytesPerSecond : ℚ) - originOf w) := by
    rw [threshold_iff]; omega
  simp only [processChunk]
  rw [if_neg hcond]

/-- Processing the chunk that lands exactly on the end of window `w`
dispatches the span `[windowBytes * w, windowBytes * (w+1))`; on success the
origin advances to `originOf (w+1)`, on failure it stays at `originOf w`. -/
lemma processChunk_dispatch (stub : Stub) (tag : String) (B c w : ℕ)
    (hB : B + c = windowBytes * (w + 1)) :
    processChunk stub tag ⟨B, originOf w⟩ c =
      match stub (windowBytes * w) (windowBytes * (w + 1)) with
      | some raw =>
          ⟨⟨windowBytes * (w + 1), originOf (w + 1)⟩,
           raw.map (fun r => ⟨r.1, r.2.1 + originOf w, r.2.2 + originOf w, tag⟩),
           [(windowBytes * w, windowBytes * (w + 1))]⟩
      | none =>
          ⟨⟨windowBytes * (w + 1), originOf w⟩, [],
           [(windowBytes * w, windowBytes * (w + 1))]⟩ := by
  have hcond :
      BUFFER_DURATION_SECONDS ≤
        ((B + c : ℕ) : ℚ) / (bytesPerSecond : ℚ) - originOf w := by
    rw [threshold_iff]; omega
  have hlo : byteOffset (originOf w) < B + c := by
    rw [byteOffset_originOf, hB]
    exact Nat.mul_lt_mul_of_le_of_lt (le_refl windowBytes) (Nat.lt_succ_self w)
      windowBytes_pos
  simp only [processChunk]
  rw [if_pos hcond, byteOffset_originOf]
  rw [if_pos (byteOffset_originOf w ▸ hlo)]
  have htot : ((B + c : ℕ) : ℚ) / (bytesPerSecond : ℚ) = originOf (w + 1) := by
    rw [hB]; exact total_exact w
  rw [hB, total_exact]

end WhisperModel

namespace WhisperModel

/-- If the next chunk does not reach the end of window `w + 1`, the window
index `⌊n·c / windowBytes⌋` is unchanged. -/
lemma windowIndex_stay (c n : ℕ)
    (hlt : (n + 1) * c < windowBytes * (n * c / windowBytes + 1)) :
    (n + 1) * c / windowBytes = n * c / windowBytes := by
  apply le_antisymm
  · have h0 : (n + 1) * c < (n * c / windowBytes + 1) * windowBytes := by
      calc (n + 1) * c < windowBytes * (n * c / windowBytes + 1) := hlt
        _ = (n * c / windowBytes + 1) * windowBytes := Nat.mul_comm _ _
    have h1 : (n + 1) * c / windowBytes < n * c / windowBytes + 1 :=
      (Nat.div_lt_iff_lt_mul windowBytes_pos).mpr h0
    omega
  · exact Nat.div_le_div_right (Nat.mul_le_mul_right c (Nat.le_succ n))

/-- When each chunk's byte length divides `windowBytes`, the first chunk that
reaches the end of window `w` lands exactly on the boundary
`windowBytes * (w + 1)`. -/
lemma windowIndex_cross (c n : ℕ) (hd : c ∣ windowBytes)
    (hge : windowBytes * (n * c / windowBytes + 1) ≤ (n + 1) * c) :
    (n + 1) * c = windowBytes * (n * c / windowBytes + 1) := by
  obtain ⟨m, hm⟩ := hd
  have hcpos : 0 < c := by
    rcases Nat.eq_zero_or_pos c with hc0 | hc
    · exfalso
      have : windowBytes = 0 := by rw [hm, hc0]; ring
      exact absurd this (Nat.pos_iff_ne_zero.mp windowBytes_pos)
    · exact hc
  have hnc : n * c < windowBytes * (n * c / windowBytes + 1) := by
    have h2 : n * c < (n * c / windowBytes + 1) * windowBytes :=
      (Nat.div_lt_iff_lt_mul windowBytes_pos).mp
        (Nat.lt_succ_self (n * c / windowBytes))
    calc n * c < (n * c / windowBytes + 1) * windowBytes := h2
      _ = windowBytes * (n * c / windowBytes + 1) := Nat.mul_comm _ _
  have h2 : n < m * (n * c / windowBytes + 1) := by
    have hlt : n * c < (m * (n * c / windowBytes + 1)) * c := by
      calc n * c < windowBytes * (n * c / windowBytes + 1) := hnc
        _ = (m * (n * c / windowBytes + 1)) * c := by rw [hm]; ring
    exact Nat.lt_of_mul_lt_mul_right hlt
  have h3 : (n + 1) * c ≤ windowBytes * (n * c / windowBytes + 1) := by
    calc (n + 1) * c ≤ (m * (n * c / windowBytes + 1)) * c :=
          Nat.mul_le_mul_right c h2
      _ = windowBytes * (n * c / windowBytes + 1) := by rw [hm]; ring
  omega

/-- Unfolding `runLoop` over one extra chunk at the end. -/
lemma runLoop_append (stub : Stub) (tag : String) (l : List ℕ) (c : ℕ) :
    runLoop stub tag (l ++ [c]) =
      ((processChunk stub tag (runLoop stub tag l).1 c).state,
       (runLoop stub tag l).2.1 ++ (processChunk stub tag (runLoop stub tag l).1 c).segs,
       (runLoop stub tag l).2.2 ++ (processChunk stub tag (runLoop stub tag l).1 c).calls) := by
  simp only [runLoop, List.foldl_append, List.foldl_cons, List.foldl_nil]

/-- Invariant of the `transcribe_stream` loop under `okStub r` for `n` chunks
of uniform byte length `c` dividing `windowBytes`: the buffer holds `n * c`
bytes, `last_transcription_end` sits at the end of window
`w = ⌊n·c / windowBytes⌋`, one segment was emitted per completed window at
origin `originOf i`, and one span was dispatched per completed window. -/
lemma runLoop_replicate (r : RawSeg) (tag : String) (c : ℕ)
    (hd : c ∣ windowBytes) (n : ℕ) :
    runLoop (okStub r) tag (List.replicate n c) =
      (⟨n * c, originOf (n * c / windowBytes)⟩,
       mkSegsUpTo r tag (n * c / windowBytes),
       mkCalls (n * c / windowBytes)) := by
  induction n with
  | zero =>
      simp [runLoop, originOf, mkSegsUpTo, mkCalls]
  | succ n ih =>
      rw [List.replicate_succ', runLoop_append, ih]
      by_cases hcross : windowBytes * (n * c / windowBytes + 1) ≤ (n + 1) * c
      · have hx := windowIndex_cross c n hd hcross
        have hw' : (n + 1) * c / windowBytes = n * c / windowBytes + 1 := by
          rw [hx]
          exact Nat.mul_div_cancel_left _ windowBytes_pos
        have hB : n * c + c = windowBytes * (n * c / windowBytes + 1) := by
          rw [← hx]; ring
        rw [processChunk_dispatch (okStub r) tag (n * c) c (n * c / windowBytes) hB]
        simp only [okStub, hw']
        refine Prod.ext ?_ (Prod.ext ?_ ?_)
        · simp only [← hx]
        · simp only [mkSegsUpTo, List.range_succ, List.map_append, List.map_cons,
            List.map_nil]
        · simp only [mkCalls, List.range_succ, List.map_append, List.map_cons,
            List.map_nil, ← hx]
      · have hlt : (n + 1) * c < windowBytes * (n * c / windowBytes + 1) :=
          Nat.not_le.mp hcross
        have hw' : (n + 1) * c / windowBytes = n * c / windowBytes :=
          windowIndex_stay c n hlt
        have hB : n * c + c < windowBytes * (n * c / windowBytes + 1) := by
          have : n * c + c = (n + 1) * c := by ring
          omega
        rw [processChunk_no_dispatch (okStub r) tag (n * c) c (n * c / windowBytes) hB]
        rw [hw']
        refine Prod.ext ?_ (Prod.ext ?_ ?_)
        · have : n * c + c = (n + 1) * c := by ring
          simp only [this]
        · simp
        · simp

end WhisperModel

namespace WhisperModel

/-- The tail flush from the invariant state: it dispatches exactly when the
last exact window boundary lies strictly inside the buffer. -/
lemma tailFlush_at (r : RawSeg) (tag : String) (B w : ℕ) :
    tailFlush (okStub r) tag ⟨B, originOf w⟩ =
      if windowBytes * w < B then
        ([⟨r.1, r.2.1 + originOf w, r.2.2 + originOf w, tag⟩],
         [(windowBytes * w, B)])
      else ([], []) := by
  simp only [tailFlush, byteOffset_originOf, okStub]
  by_cases h : windowBytes * w < B
  · rw [if_pos h, if_pos h]
    simp
  · rw [if_neg h, if_neg h]

lemma mul_div_lt_of_not_dvd (B : ℕ) (h : ¬ windowBytes ∣ B) :
    windowBytes * (B / windowBytes) < B := by
  have hle : windowBytes * (B / windowBytes) ≤ B := Nat.mul_div_le B windowBytes
  rcases Nat.lt_or_ge (windowBytes * (B / windowBytes)) B with hlt | hge
  · exact hlt
  · exact absurd ⟨B / windowBytes, (le_antisymm hle hge).symm⟩ h

lemma ceilWindows_of_dvd (B : ℕ) (h : windowBytes ∣ B) :
    ceilWindows B = B / windowBytes := by
  simp [ceilWindows, h]

lemma ceilWindows_of_not_dvd (B : ℕ) (h : ¬ windowBytes ∣ B) :
    ceilWindows B = B / windowBytes + 1 := by
  simp [ceilWindows, h]

/-- For a total that is not an exact multiple of the window size, the window
count `⌊B / windowBytes⌋ + 1` is the ceiling `⌈B / windowBytes⌉`. -/
lemma ceil_formula (B : ℕ) (h : ¬ windowBytes ∣ B) :
    B / windowBytes + 1 = (B + windowBytes - 1) / windowBytes := by
  have hWB := windowBytes_pos
  have hmod := Nat.div_add_mod B windowBytes
  have hs : 0 < B % windowBytes :=
    Nat.pos_of_ne_zero (fun h0 => h (Nat.dvd_of_mod_eq_zero h0))
  have hslt : B % windowBytes < windowBytes := Nat.mod_lt B hWB
  have hexp : windowBytes * (B / windowBytes + 1)
      = windowBytes * (B / windowBytes) + windowBytes := by ring
  have heq : B + windowBytes - 1
      = windowBytes * (B / windowBytes + 1) + (B % windowBytes - 1) := by omega
  have hdiv : (windowBytes * (B / windowBytes + 1) + (B % windowBytes - 1)) /
        windowBytes
      = B / windowBytes + 1 + (B % windowBytes - 1) / windowBytes :=
    Nat.mul_add_div hWB _ _
  have hz : (B % windowBytes - 1) / windowBytes = 0 := Nat.div_eq_of_lt (by omega)
  rw [heq, hdiv, hz]

lemma mkSegsUpTo_succ (r : RawSeg) (tag : String) (w : ℕ) :
    mkSegsUpTo r tag (w + 1) =
      mkSegsUpTo r tag w ++
        [⟨r.1, r.2.1 + originOf w, r.2.2 + originOf w, tag⟩] := by
  simp [mkSegsUpTo, List.range_succ]

/-- Emitted `start` values of the expected segment list are non-decreasing. -/
lemma mkSegsUpTo_start_pairwise (r : RawSeg) (tag : String) (k : ℕ) :
    ((mkSegsUpTo r tag k).map TranscriptionSegment.start).Pairwise (· ≤ ·) := by
  simp only [mkSegsUpTo, List.map_map]
  rw [List.pairwise_map]
  refine (List.pairwise_lt_range k).imp ?_
  intro a b hab
  simp only [Function.comp_apply, originOf]
  have hq : (a : ℚ) ≤ (b : ℚ) := by exact_mod_cast Nat.le_of_lt hab
  linarith

/-- Full run of `transcribe_stream` with one fixed segment per call, uniform
chunks of length `c ∣ windowBytes`: one segment per window with origins at
exact window multiples, spans at exact window boundaries, and a tail span
exactly when the total is not a multiple of the window. -/
lemma transcribeStreamRun_replicate (r : RawSeg) (tag : String) (c K : ℕ)
    (hd : c ∣ windowBytes) :
    transcribeStreamRun (okStub r) tag (List.replicate K c) =
      (mkSegsUpTo r tag (ceilWindows (K * c)),
       mkCalls (K * c / windowBytes) ++
         (if windowBytes ∣ K * c then []
          else [(windowBytes * (K * c / windowBytes), K * c)])) := by
  simp only [transcribeStreamRun, runLoop_replicate r tag c hd K]
  rw [tailFlush_at]
  by_cases h : windowBytes ∣ K * c
  · rw [if_neg (by rw [Nat.mul_div_cancel' h]; omega), if_pos h]
    rw [ceilWindows_of_dvd _ h]
    simp
  · rw [if_pos (mul_div_lt_of_not_dvd _ h), if_neg h]
    rw [ceilWindows_of_not_dvd _ h, mkSegsUpTo_succ]

lemma runLoop_eq_runLoopFrom (stub : Stub) (tag : String) (chunks : List ℕ) :
    runLoop stub tag chunks = runLoopFrom stub tag ⟨0, 0⟩ chunks := rfl

/-- Factoring the segment and span accumulators out of the loop's fold. -/
lemma runLoopFrom_acc (stub : Stub) (tag : String) (cs : List ℕ) :
    ∀ (st : StreamState) (s : List TranscriptionSegment) (k : List (ℕ × ℕ)),
    cs.foldl
      (fun acc c =>
        let out := processChunk stub tag acc.1 c
        (out.state, acc.2.1 ++ out.segs, acc.2.2 ++ out.calls))
      (st, s, k)
      = ((runLoopFrom stub tag st cs).1,
         s ++ (runLoopFrom stub tag st cs).2.1,
         k ++ (runLoopFrom stub tag st cs).2.2) := by
  induction cs with
  | nil =>
      intro st s k
      simp [runLoopFrom]
  | cons c cs ih =>
      intro st s k
      simp only [runLoopFrom, List.foldl_cons]
      rw [ih]
      rw [ih]
      simp [List.append_assoc]

/-- Unfolding the loop over its first chunk. -/
lemma runLoopFrom_cons (stub : Stub) (tag : String) (st : StreamState)
    (c : ℕ) (cs : List ℕ) :
    runLoopFrom stub tag st (c :: cs) =
      ((runLoopFrom stub tag (processChunk stub tag st c).state cs).1,
       (processChunk stub tag st c).segs ++
         (runLoopFrom stub tag (processChunk stub tag st c).state cs).2.1,
       (processChunk stub tag st c).calls ++
         (runLoopFrom stub tag (processChunk stub tag st c).state cs).2.2) := by
  conv_lhs => rw [runLoopFrom]
  simp only [List.foldl_cons]
  rw [runLoopFrom_acc]
  simp

/-- Loop invariant for an always-succeeding single-segment stub over an
ARBITRARY chunk sequence: every yielded segment is the raw segment shifted by
the window origin (`last_transcription_end`) current at its dispatch, those
origins are non-decreasing, and they all lie between the initial and the
final origin (the origin never decreases). -/
lemma runLoopFrom_okStub_origins (r : RawSeg) (tag : String) (cs : List ℕ) :
    ∀ st : StreamState,
    ∃ origins : List ℚ,
      (runLoopFrom (okStub r) tag st cs).2.1 = origins.map (shiftSeg r tag) ∧
      origins.Pairwise (· ≤ ·) ∧
      (∀ o ∈ origins, st.lastEnd ≤ o ∧
        o ≤ (runLoopFrom (okStub r) tag st cs).1.lastEnd) ∧
      st.lastEnd ≤ (runLoopFrom (okStub r) tag st cs).1.lastEnd := by
  induction cs with
  | nil =>
      intro st
      refine ⟨[], by simp [runLoopFrom], by simp, by simp, le_refl _⟩
  | cons c cs ih =>
      intro st
      by_cases hcond : BUFFER_DURATION_SECONDS ≤
          ((st.bufLen + c : ℕ) : ℚ) / (bytesPerSecond : ℚ) - st.lastEnd
      · by_cases hlo : byteOffset st.lastEnd < st.bufLen + c
        · -- dispatch; `okStub` always succeeds with the single segment `r`
          have hout : processChunk (okStub r) tag st c =
              ⟨⟨st.bufLen + c,
                ((st.bufLen + c : ℕ) : ℚ) / (bytesPerSecond : ℚ)⟩,
               [shiftSeg r tag st.lastEnd],
               [(byteOffset st.lastEnd, st.bufLen + c)]⟩ := by
            simp only [processChunk, okStub]
            rw [if_pos hcond, if_pos hlo]
            simp [shiftSeg]
          have hle : st.lastEnd ≤
              ((st.bufLen + c : ℕ) : ℚ) / (bytesPerSecond : ℚ) := by
            simp only [BUFFER_DURATION_SECONDS] at hcond
            linarith
          obtain ⟨origins, h1, h2, h3, h4⟩ :=
            ih ⟨st.bufLen + c, ((st.bufLen + c : ℕ) : ℚ) / (bytesPerSecond : ℚ)⟩
          simp only at h3 h4
          refine ⟨st.lastEnd :: origins, ?_, ?_, ?_, ?_⟩
          · rw [runLoopFrom_cons, hout]
            dsimp only
            simp only [h1, List.map_cons, List.singleton_append]
          · rw [List.pairwise_cons]
            exact ⟨fun o ho => le_trans hle (h3 o ho).1, h2⟩
          · intro o ho
            rw [runLoopFrom_cons, hout]
            dsimp only
            rcases List.mem_cons.mp ho with rfl | ho'
            · exact ⟨le_refl _, le_trans hle h4⟩
            · exact ⟨le_trans hle (h3 o ho').1, (h3 o ho').2⟩
          · rw [runLoopFrom_cons, hout]
            dsimp only
            exact le_trans hle h4
        · -- dispatch condition met but the undispatched span is empty
          have hout : processChunk (okStub r) tag st c =
              ⟨⟨st.bufLen + c, st.lastEnd⟩, [], []⟩ := by
            simp only [processChunk]
            rw [if_pos hcond, if_neg hlo]
          obtain ⟨origins, h1, h2, h3, h4⟩ := ih ⟨st.bufLen + c, st.lastEnd⟩
          simp only at h3 h4
          refine ⟨origins, ?_, h2, ?_, ?_⟩
          · rw [runLoopFrom_cons, hout]
            dsimp only
            simp only [List.nil_append]
            exact h1
          · intro o ho
            rw [runLoopFrom_cons, hout]
            dsimp only
            exact h3 o ho
          · rw [runLoopFrom_cons, hout]
            dsimp only
            exact h4
      · -- no dispatch: the chunk only accumulates
        have hout : processChunk (okStub r) tag st c =
            ⟨⟨st.bufLen + c, st.lastEnd⟩, [], []⟩ := by
          simp only [processChunk]
          rw [if_neg hcond]
        obtain ⟨origins, h1, h2, h3, h4⟩ := ih ⟨st.bufLen + c, st.lastEnd⟩
        simp only at h3 h4
        refine ⟨origins, ?_, h2, ?_, ?_⟩
        · rw [runLoopFrom_cons, hout]
          dsimp only
          simp only [List.nil_append]
          exact h1
        · intro o ho
          rw [runLoopFrom_cons, hout]
          dsimp only
          exact h3 o ho
        · rw [runLoopFrom_cons, hout]
          dsimp only
          exact h4

/-- The tail flush with an always-succeeding single-segment stub yields
nothing, or exactly the raw segment shifted by the final origin. -/
lemma tailFlush_okStub_shape (r : RawSeg) (tag : String) (st : StreamState) :
    tailFlush (okStub r) tag st = ([], []) ∨
    tailFlush (okStub r) tag st =
      ([shiftSeg r tag st.lastEnd], [(byteOffset st.lastEnd, st.bufLen)]) := by
  simp only [tailFlush, okStub]
  by_cases h : byteOffset st.lastEnd < st.bufLen
  · right
    rw [if_pos h]
    simp [shiftSeg]
  · left
    rw [if_neg h]

/-- Over an ARBITRARY chunk sequence, the full adapter run with one fixed raw
segment per call emits exactly a list of origin-shifted copies of that
segment, with non-decreasing origins (the tail-flush origin is the final,
largest one). -/
lemma transcribeStreamRun_origins (r : RawSeg) (tag : String)
    (chunks : List ℕ) :
    ∃ origins : List ℚ,
      (transcribeStreamRun (okStub r) tag chunks).1 =
        origins.map (shiftSeg r tag) ∧
      origins.Pairwise (· ≤ ·) := by
  obtain ⟨origins, h1, h2, h3, h4⟩ :=
    runLoopFrom_okStub_origins r tag chunks ⟨0, 0⟩
  rw [← runLoop_eq_runLoopFrom] at h1 h3
  rcases tailFlush_okStub_shape r tag (runLoop (okStub r) tag chunks).1
    with htail | htail
  · refine ⟨origins, ?_, h2⟩
    simp only [transcribeStreamRun, htail, h1]
    simp
  · refine ⟨origins ++ [(runLoop (okStub r) tag chunks).1.lastEnd], ?_, ?_⟩
    · simp only [transcribeStreamRun, htail, h1]
      simp
    · rw [List.pairwise_append]
      refine ⟨h2, List.pairwise_singleton _ _, ?_⟩
      intro a ha b hb
      rw [List.mem_singleton.mp hb]
      exact (h3 a ha).2

end WhisperModel

namespace WhisperModel

/-- C2 (counterexample): running `transcribe_stream` on four 3-second chunks
with a capability that raises on the first dispatched window `[0, 192000)`
shows the code does NOT advance `last_transcription_end` past the failed
window: the very next dispatched span is `[0, 288000)`, which re-contains
every byte of the failed window, and the successful segment after the failure
is shifted by `0`.  This refutes "advances window_origin past the failed
window so that the failed window's audio bytes are never included in any
later dispatched span". -/
theorem failed_window_bytes_redispatched :
    (transcribeStreamRun failFirstStub "t" (List.replicate 4 96000)).2 =
      [(0, 192000), (0, 288000), (288000, 384000)] ∧
    (transcribeStreamRun failFirstStub "t" (List.replicate 4 96000)).1 =
      [⟨"x", 0, 1, "t"⟩, ⟨"x", 9, 10, "t"⟩] := by
  constructor <;>
    norm_num [transcribeStreamRun, runLoop, List.foldl, processChunk, tailFlush,
      byteOffset, failFirstStub, BUFFER_DURATION_SECONDS, bytesPerSecond,
      Settings.AUDIO_SAMPLE_RATE, List.replicate, Int.toNat_ofNat] <;>
    rfl

/-- C2 (amended): when a window dispatch's transcription call raises, the
adapter catches it and emits no segments for that window, the loop continues
with subsequent chunks (the call returns normally with the buffer grown), but
`last_transcription_end` (the window origin) is NOT advanced, so the failed
window's bytes remain part of the next dispatched span. -/
theorem window_error_skips_segments_keeps_origin (stub : Stub) (tag : String)
    (st : StreamState) (c : ℕ)
    (hthr : BUFFER_DURATION_SECONDS ≤
      ((st.bufLen + c : ℕ) : ℚ) / (bytesPerSecond : ℚ) - st.lastEnd)
    (hlo : byteOffset st.lastEnd < st.bufLen + c)
    (herr : stub (byteOffset st.lastEnd) (st.bufLen + c) = none) :
    processChunk stub tag st c =
      ⟨⟨st.bufLen + c, st.lastEnd⟩, [], [(byteOffset st.lastEnd, st.bufLen + c)]⟩ := by
  simp only [processChunk]
  rw [if_pos hthr, if_pos hlo, herr]

/-- Witness for C2's amended theorem at the concrete input of the
counterexample's failing window. -/
theorem window_error_skips_segments_keeps_origin_witness :
    (BUFFER_DURATION_SECONDS ≤
      ((96000 + 96000 : ℕ) : ℚ) / (bytesPerSecond : ℚ) - 0) ∧
    byteOffset 0 < 96000 + 96000 ∧
    failFirstStub (byteOffset 0) (96000 + 96000) = none ∧
    processChunk failFirstStub "t" ⟨96000, 0⟩ 96000 =
      ⟨⟨96000 + 96000, 0⟩, [], [(byteOffset 0, 96000 + 96000)]⟩ := by
  have h1 : BUFFER_DURATION_SECONDS ≤
      ((96000 + 96000 : ℕ) : ℚ) / (bytesPerSecond : ℚ) - 0 := by
    norm_num [BUFFER_DURATION_SECONDS, bytesPerSecond, Settings.AUDIO_SAMPLE_RATE]
  have h2 : byteOffset 0 < 96000 + 96000 := by
    simp [byteOffset]
  have h3 : failFirstStub (byteOffset 0) (96000 + 96000) = none := by
    simp [failFirstStub, byteOffset]
  exact ⟨h1, h2, h3,
    window_error_skips_segments_keeps_origin failFirstStub "t" ⟨96000, 0⟩ 96000
      h1 h2 h3⟩

/-- C4 (counterexample): four 3-second chunks (chunk duration 3 does not
divide W = 5).  The second window's dispatch happens at 6 s, so its emitted
segment starts at `6 + 0`, not at `window_index * W + local_offset = 1*5 + 0`:
the claim's `i * W + local_offset` formula fails for chunk durations that do
not divide the window length. -/
theorem segment_start_off_window_multiple :
    (transcribeStreamRun (okStub ("x", 0, 1)) "t" (List.replicate 4 96000)).1 =
      [⟨"x", 0, 1, "t"⟩, ⟨"x", 6, 7, "t"⟩] ∧
    ((6 : ℚ) ≠ 1 * 5 + 0) := by
  constructor
  · norm_num [transcribeStreamRun, runLoop, List.foldl, processChunk, tailFlush,
      byteOffset, okStub, BUFFER_DURATION_SECONDS, bytesPerSecond,
      Settings.AUDIO_SAMPLE_RATE, List.replicate, Int.toNat_ofNat]
  · norm_num

/-- C4 (amended): with the stub returning one fixed segment `r` per call,
(1) for EVERY chunk sequence, each emitted segment is the raw segment shifted
by the window origin (`last_transcription_end`) current at its dispatch —
absolute start = local_start + window_origin — with non-decreasing origins;
(2) for EVERY chunk sequence, the emitted `start` values are non-decreasing
across the whole session (tail flush included);
(3) the start of the segment from window `i` equals
`i * W + local_offset` only for uniform chunks whose byte length `c` divides
`windowBytes` (chunk duration divides W = 5 s): then the emitted list is
exactly one segment per window `i` starting at `local_start + originOf i`. -/
theorem windowed_adapter_timestamps (r : RawSeg) (tag : String)
    (chunks : List ℕ) (c K : ℕ) (hd : c ∣ windowBytes) :
    (∃ origins : List ℚ,
        (transcribeStreamRun (okStub r) tag chunks).1 =
          origins.map (shiftSeg r tag) ∧
        origins.Pairwise (· ≤ ·)) ∧
    ((transcribeStreamRun (okStub r) tag chunks).1.map
        TranscriptionSegment.start).Pairwise (· ≤ ·) ∧
    (transcribeStreamRun (okStub r) tag (List.replicate K c)).1 =
      mkSegsUpTo r tag (ceilWindows (K * c)) := by
  refine ⟨transcribeStreamRun_origins r tag chunks, ?_, ?_⟩
  · obtain ⟨origins, h1, h2⟩ := transcribeStreamRun_origins r tag chunks
    rw [h1, List.map_map, List.pairwise_map]
    refine h2.imp ?_
    intro a b hab
    simp only [Function.comp_apply, shiftSeg]
    linarith
  · rw [transcribeStreamRun_replicate r tag c K hd]

/-- Witness for C4's amended theorem: the general conjuncts at four 3-second
chunks (a chunk duration that does NOT divide W), the window-multiple
conjunct at seven 1-second chunks. -/
theorem windowed_adapter_timestamps_witness :
    (32000 ∣ windowBytes) ∧
    ((∃ origins : List ℚ,
        (transcribeStreamRun (okStub ("x", 0, 1)) "t"
            (List.replicate 4 96000)).1 =
          origins.map (shiftSeg ("x", 0, 1) "t") ∧
        origins.Pairwise (· ≤ ·)) ∧
     ((transcribeStreamRun (okStub ("x", 0, 1)) "t"
          (List.replicate 4 96000)).1.map
         TranscriptionSegment.start).Pairwise (· ≤ ·) ∧
     (transcribeStreamRun (okStub ("x", 0, 1)) "t"
          (List.replicate 7 32000)).1 =
       mkSegsUpTo ("x", 0, 1) "t" (ceilWindows (7 * 32000))) :=
  ⟨⟨5, rfl⟩,
   windowed_adapter_timestamps ("x", 0, 1) "t" (List.replicate 4 96000) 32000 7
     ⟨5, rfl⟩⟩

/-- C5 (counterexample): four 3-second chunks, total 12 s, not a multiple of
W = 5.  Both dispatches happen inside the loop (at 6 s and 12 s), the buffer
is empty at stream end so there is NO tail-flush dispatch, and the capability
is called 2 times, not `ceil(12/5) = 3`: the claim fails for chunk durations
that do not divide the window length. -/
theorem call_count_below_ceiling :
    (transcribeStreamRun (okStub ("x", 0, 1)) "t" (List.replicate 4 96000)).2 =
      [(0, 192000), (192000, 384000)] ∧
    ¬ windowBytes ∣ 4 * 96000 ∧
    (2 : ℕ) ≠ (4 * 96000 + windowBytes - 1) / windowBytes := by
  refine ⟨?_, ?_, ?_⟩
  · norm_num [transcribeStreamRun, runLoop, List.foldl, processChunk, tailFlush,
      byteOffset, okStub, BUFFER_DURATION_SECONDS, bytesPerSecond,
      Settings.AUDIO_SAMPLE_RATE, List.replicate, Int.toNat_ofNat] <;> rfl
  · rw [windowBytes_eq]; norm_num
  · rw [windowBytes_eq]; norm_num

/-- C5 (amended): for `K` uniform chunks whose byte length `c` divides
`windowBytes` and whose total is not an exact multiple of the window, the
buffered remainder is dispatched once more at stream end (the final span runs
from the last window boundary to the total byte count), and the capability is
invoked exactly `ceil(total / W) = (K*c + windowBytes - 1) / windowBytes`
times. -/
theorem windowed_adapter_tail_flush_call_count (c K : ℕ) (r : RawSeg)
    (tag : String) (hd : c ∣ windowBytes) (hnd : ¬ windowBytes ∣ K * c) :
    (transcribeStreamRun (okStub r) tag (List.replicate K c)).2 =
      mkCalls (K * c / windowBytes) ++
        [(windowBytes * (K * c / windowBytes), K * c)] ∧
    (transcribeStreamRun (okStub r) tag (List.replicate K c)).2.length =
      (K * c + windowBytes - 1) / windowBytes := by
  have h := transcribeStreamRun_replicate r tag c K hd
  constructor
  · rw [h]
    simp [hnd]
  · rw [h]
    simp only [hnd, if_false, List.length_append, List.length_singleton]
    rw [mkCalls, List.length_map, List.length_range]
    exact ceil_formula (K * c) hnd

/-- Witness for C5's amended theorem: seven 1-second chunks, total 7 s. -/
theorem windowed_adapter_tail_flush_call_count_witness :
    (32000 ∣ windowBytes) ∧ (¬ windowBytes ∣ 7 * 32000) ∧
    ((transcribeStreamRun (okStub ("x", 0, 1)) "t" (List.replicate 7 32000)).2 =
      mkCalls (7 * 32000 / windowBytes) ++
        [(windowBytes * (7 * 32000 / windowBytes), 7 * 32000)] ∧
     (transcribeStreamRun (okStub ("x", 0, 1)) "t"
        (List.replicate 7 32000)).2.length =
      (7 * 32000 + windowBytes - 1) / windowBytes) := by
  have hnd : ¬ windowBytes ∣ 7 * 32000 := by rw [windowBytes_eq]; norm_num
  exact ⟨⟨5, rfl⟩, hnd,
    windowed_adapter_tail_flush_call_count 32000 7 ("x", 0, 1) "t" ⟨5, rfl⟩ hnd⟩

/-- C10: calling `transcribe` or `transcribe_stream` while the model is not
loaded (`is_loaded` false or `_model` absent) raises the `RuntimeError` of
lines 51-52 / 101-102 before any audio is processed — the result is the same
for every inference function and every chunk sequence — and the model state
is returned unchanged. -/
theorem transcribe_requires_loaded_model {mu : Type} (st : ModelState mu)
    (run : mu → Option (List RawSeg)) (modelRun : mu → Stub) (tag : String)
    (chunks : List ℕ)
    (h : st.is_loaded = false ∨ st._model.isNone) :
    transcribe st run tag = (Except.error notLoadedMsg, st) ∧
    transcribe_stream st modelRun tag chunks = (Except.error notLoadedMsg, st) := by
  constructor
  · simp only [transcribe]
    rw [if_pos h]
  · simp only [transcribe_stream]
    rw [if_pos h]

/-- Witness for C10 at a concrete unloaded state. -/
theorem transcribe_requires_loaded_model_witness :
    ((false = false ∨ (none : Option Unit).isNone)) ∧
    (transcribe (⟨false, none⟩ : ModelState Unit) (fun _ => none) "t" =
      (Except.error notLoadedMsg, ⟨false, none⟩) ∧
     transcribe_stream (⟨false, none⟩ : ModelState Unit) (fun _ _ _ => none) "t"
        [] = (Except.error notLoadedMsg, ⟨false, none⟩)) :=
  ⟨Or.inl rfl,
   transcribe_requires_loaded_model ⟨false, none⟩ (fun _ => none)
     (fun _ _ _ => none) "t" [] (Or.inl rfl)⟩

end WhisperModel

namespace AudioManager

/-- C3 (counterexample): a file-variant producer that has started running
(its generator body never executes any registry insertion) is absent from
`active_streams`: the registry after the generator's first iteration on an
empty registry does not contain the tag, refuting "every
started-and-not-yet-stopped producer of any variant appears in it". -/
theorem file_producer_missing_from_active_set :
    "f" ∉ generator_registry_enter SourceType.file [] "f" := by
  simp [generator_registry_enter]

/-- C3 (amended): only the loopback (screen) variant registers itself in
`active_streams` when its generator starts, and only it removes its own entry
in its `finally` block; microphone and file producers never appear in the
active-set at all (their generators never touch the registry), so
`get_active_streams` tracks loopback producers only. -/
theorem registry_tracks_only_loopback_producers (reg : List String)
    (tag : String) (h : tag ∉ reg) :
    generator_registry_enter SourceType.microphone reg tag = reg ∧
    generator_registry_enter SourceType.file reg tag = reg ∧
    generator_registry_enter SourceType.screen reg tag = reg ++ [tag] ∧
    tag ∈ generator_registry_enter SourceType.screen reg tag ∧
    generator_registry_exit SourceType.screen (reg ++ [tag]) tag = reg ∧
    generator_registry_exit SourceType.microphone reg tag = reg ∧
    generator_registry_exit SourceType.file reg tag = reg := by
  have henter : generator_registry_enter SourceType.screen reg tag
      = reg ++ [tag] := by
    simp [generator_registry_enter, h]
  refine ⟨rfl, rfl, henter, ?_, ?_, rfl, rfl⟩
  · rw [henter]
    simp
  · have hmem : tag ∈ reg ++ [tag] := by simp
    simp only [generator_registry_exit]
    rw [if_pos hmem, List.erase_append_right [tag] h, List.erase_cons_head,
      List.append_nil]

/-- Witness for C3's amended theorem on a singleton registry setup. -/
theorem registry_tracks_only_loopback_producers_witness :
    ("s" ∉ (["other"] : List String)) ∧
    (generator_registry_enter SourceType.microphone ["other"] "s" = ["other"] ∧
     generator_registry_enter SourceType.file ["other"] "s" = ["other"] ∧
     generator_registry_enter SourceType.screen ["other"] "s" =
       ["other"] ++ ["s"] ∧
     "s" ∈ generator_registry_enter SourceType.screen ["other"] "s" ∧
     generator_registry_exit SourceType.screen (["other"] ++ ["s"]) "s" =
       ["other"] ∧
     generator_registry_exit SourceType.microphone ["other"] "s" = ["other"] ∧
     generator_registry_exit SourceType.file ["other"] "s" = ["other"]) :=
  ⟨by decide, registry_tracks_only_loopback_producers ["other"] "s" (by decide)⟩

/-- C8: `_file_stream_generator` on an existing WAV file: any violation of
the strict format contract (mono, 16-bit i.e. sample width 2, exactly the
configured 16000 Hz) yields the `ValueError` with no chunk ever produced,
while a conforming file yields exactly the chunked frame sequence and ends
naturally (an `Except.ok`, not an error). -/
theorem file_format_validation {α : Type} (nch sw fr : ℕ) (frames : List α) :
    ((nch ≠ 1 ∨ sw ≠ 2 ∨ fr ≠ Settings.AUDIO_SAMPLE_RATE) →
      file_stream_generator true nch sw fr frames =
        Except.error "Formato de archivo WAV no soportado.") ∧
    (nch = 1 → sw = 2 → fr = Settings.AUDIO_SAMPLE_RATE →
      file_stream_generator true nch sw fr frames =
        Except.ok (readChunks Settings.AUDIO_CHUNK_SIZE frames)) := by
  constructor
  · intro hbad
    simp only [file_stream_generator]
    rw [if_neg (by simp), if_pos hbad]
  · intro h1 h2 h3
    simp only [file_stream_generator]
    rw [if_neg (by simp), if_neg (by simp [h1, h2, h3])]

/-- Witness for C8: a stereo file is rejected; a conforming file is chunked. -/
theorem file_format_validation_witness :
    file_stream_generator true 2 2 16000 ([0, 1] : List ℕ) =
      Except.error "Formato de archivo WAV no soportado." ∧
    file_stream_generator true 1 2 16000 ([0, 1] : List ℕ) =
      Except.ok (readChunks Settings.AUDIO_CHUNK_SIZE [0, 1]) :=
  ⟨(file_format_validation 2 2 16000 [0, 1]).1 (Or.inl (by decide)),
   (file_format_validation 1 2 16000 [0, 1]).2 rfl rfl rfl⟩

end AudioManager

namespace TranscriptionEngine

/-- C1 (code bug): stopping an active pipeline.  The engine pops and cancels
the pipeline task, but line 137 of `core/transcription_engine.py` calls the
async `AudioManager.stop_stream` without `await`, so the coroutine is created
and dropped: the registry keeps its entry and the producer's stop logic never
runs before `stop_transcription_stream` returns.  Had the call been awaited,
`stop_stream` would have removed the entry (third conjunct). -/
theorem stop_without_await_leaves_producer_running :
    stop_transcription_stream ["mic"] ["mic"] "mic" = ([], ["mic"]) ∧
    "mic" ∈ (stop_transcription_stream ["mic"] ["mic"] "mic").2 ∧
    AudioManager.stop_stream ["mic"] "mic" = ([], true) := by
  refine ⟨?_, ?_, ?_⟩ <;> decide

/-- C6: loading a differently-configured model B while model A is loaded
unloads A exactly once, strictly before B's `load_model` call (the event
trace is `[unload A, load B]`), and a failed load — whether the factory or
`load_model` raises — leaves `current_model = None` (never a half-loaded
model); on success exactly the freshly loaded B is resident. -/
theorem model_swap_exclusive (m inst : MState) (key size : String)
    (loadOk : Bool) (hl : m.is_loaded = true)
    (hne : m.model_name ≠ key ++ "-" ++ size) :
    load_transcription_model (some m) key size (some inst) loadOk =
      ((if loadOk then some { inst with is_loaded := true } else none),
       [LoadEvent.unload m.model_name, LoadEvent.load inst.model_name],
       loadOk) ∧
    load_transcription_model (some m) key size none loadOk =
      (none, [LoadEvent.unload m.model_name], false) := by
  have hcond : ¬ (m.model_name = key ++ "-" ++ size ∧ m.is_loaded = true) := by
    intro hc
    exact hne hc.1
  constructor
  · simp only [load_transcription_model]
    rw [if_neg hcond]
    by_cases hok : loadOk = true
    · simp [hok]
    · simp only [Bool.not_eq_true] at hok
      simp [hok]
  · simp only [load_transcription_model]
    rw [if_neg hcond]

/-- Witness for C6: a failing load of `whisper-small` over a loaded
`whisper-base` leaves no model resident. -/
theorem model_swap_exclusive_witness :
    ((⟨"whisper-base", true⟩ : MState).is_loaded = true) ∧
    ((⟨"whisper-base", true⟩ : MState).model_name ≠ "whisper" ++ "-" ++ "small") ∧
    (load_transcription_model (some ⟨"whisper-base", true⟩) "whisper" "small"
        (some ⟨"whisper-small", false⟩) false =
      (none,
       [LoadEvent.unload "whisper-base", LoadEvent.load "whisper-small"],
       false) ∧
     load_transcription_model (some ⟨"whisper-base", true⟩) "whisper" "small"
        none false = (none, [LoadEvent.unload "whisper-base"], false)) := by
  have h2 : (⟨"whisper-base", true⟩ : MState).model_name ≠
      "whisper" ++ "-" ++ "small" := by decide
  exact ⟨rfl, h2,
    model_swap_exclusive ⟨"whisper-base", true⟩ ⟨"whisper-small", false⟩
      "whisper" "small" false rfl h2⟩

/-- C7: a second `start` on a tag whose transcription is still active is
rejected (the task dictionary and outcome are unchanged — the engine never
spawns a second pipeline), leaving exactly one task for the tag; and at the
registry level, `start_stream` on an already-active tag returns `None`
without creating a second producer. -/
theorem double_start_rejected (tasks reg : List String) (tag : String)
    (ty : AudioManager.SourceType) (hfp : Bool)
    (h : tag ∉ tasks) (hreg : tag ∈ reg) :
    start_transcription_stream tasks true tag =
      (tasks ++ [tag], StartOutcome.started) ∧
    start_transcription_stream (tasks ++ [tag]) true tag =
      (tasks ++ [tag], StartOutcome.alreadyActive) ∧
    (tasks ++ [tag]).count tag = 1 ∧
    AudioManager.start_stream reg ty tag hfp = Except.ok (reg, none) := by
  refine ⟨?_, ?_, ?_, ?_⟩
  · simp [start_transcription_stream, h]
  · simp [start_transcription_stream]
  · rw [List.count_append, List.count_eq_zero.mpr h]
    simp
  · simp [AudioManager.start_stream, hreg]

/-- Witness for C7 on a fresh engine with one active producer. -/
theorem double_start_rejected_witness :
    ("mic" ∉ ([] : List String)) ∧ ("mic" ∈ (["mic"] : List String)) ∧
    (start_transcription_stream [] true "mic" =
      ([] ++ ["mic"], StartOutcome.started) ∧
     start_transcription_stream ([] ++ ["mic"]) true "mic" =
      ([] ++ ["mic"], StartOutcome.alreadyActive) ∧
     ([] ++ ["mic"] : List String).count "mic" = 1 ∧
     AudioManager.start_stream ["mic"] AudioManager.SourceType.screen "mic"
        true = Except.ok (["mic"], none)) :=
  ⟨by decide, by decide,
   double_start_rejected [] ["mic"] "mic" AudioManager.SourceType.screen true
     (by decide) (by decide)⟩

end TranscriptionEngine

/-- C9: stopping an inactive tag is a no-op on both layers: the registry's
`stop_stream` logs "not found" and leaves `active_streams` unchanged
(returning normally), and the engine's `stop_transcription_stream` logs and
leaves both the task dictionary and the registry unchanged; both embeddings
are total functions — no exception escapes either method. -/
theorem stop_inactive_is_noop (reg tasks reg2 : List String) (tag : String)
    (h1 : tag ∉ reg) (h2 : tag ∉ tasks) :
    AudioManager.stop_stream reg tag = (reg, false) ∧
    TranscriptionEngine.stop_transcription_stream tasks reg2 tag =
      (tasks, reg2) := by
  constructor
  · simp [AudioManager.stop_stream, h1]
  · simp [TranscriptionEngine.stop_transcription_stream, h2]

/-- Witness for C9 at concrete inactive tags. -/
theorem stop_inactive_is_noop_witness :
    ("mic" ∉ ([] : List String)) ∧ ("mic" ∉ (["file1"] : List String)) ∧
    (AudioManager.stop_stream [] "mic" = ([], false) ∧
     TranscriptionEngine.stop_transcription_stream ["file1"] ["x"] "mic" =
       (["file1"], ["x"])) :=
  ⟨by decide, by decide,
   stop_inactive_is_noop [] ["file1"] ["x"] "mic" (by decide) (by decide)⟩

